import Mathlib

/-!
Shallow embedding of the `LoadBalancer` module (src/index.js) of the
TopCloud/loadbalancer repository, together with theorems settling the
frozen specification claims.

Conventions of the embedding:

* JS numbers that the balancer actually computes with (ports, status
  counters) are modelled as `Int`; the `Infinity` that appears in
  `calculateLeastBusyPort` is modelled with `WithTop Int` (`⊤` plays the
  role of `Infinity`; the comparison and the `minBusiness == Infinity`
  test have exactly the JS semantics on these values).
* `Math.random()` is modelled by an explicit rational parameter
  `r ∈ [0,1)` handed to every operation that draws randomness;
  `Math.floor(Math.random() * len)` becomes `(⌊r * len⌋).toNat`.
* A JS object used as a map with numeric keys (`workerStatuses`,
  `destPorts`) is modelled by an association list ordered by ascending
  key, which is exactly the iteration order JS guarantees for
  integer-like keys.
* A computation that would throw a `TypeError` (indexing `undefined`)
  is modelled by `Option`, `none` meaning the fault.
-/

namespace LoadBalancer

/-- A worker entry of `options.workers`: only its `port` field is ever read
(src/index.js lines 150–151, 160). -/
structure Worker where
  port : Int
deriving DecidableEq, Repr

/-- A successfully parsed worker status body: the three counters read at
src/index.js lines 170–172. -/
structure WorkerStatus where
  clientCount : Int
  httpRPM : Int
  ioRPM : Int
deriving DecidableEq, Repr

/-- One slot of `this.workerStatuses`: `none` models the slot holding
`null` (empty or unparseable poll body, lines 224, 227); `some st` models a
parsed status object. -/
abbrev StatusSlot := Option WorkerStatus

/-- The `workerStatuses` object: association list keyed by port, kept in
ascending key order (JS iteration order for integer-like keys). -/
abbrev Statuses := List (Int × StatusSlot)

/-- The index `Math.floor(Math.random() * len)` for a random draw `r ∈ [0,1)`
(src/index.js line 159). -/
def randomIndex (len : Nat) (r : ℚ) : Nat :=
  (⌊r * (len : ℚ)⌋).toNat

/-- Model of `LoadBalancer.prototype._randomPort` (lines 158–161):
`this.workers[rand].port`. Indexing past the end of `workers` yields
`undefined` in JS and reading `.port` of it throws; that fault is `none`. -/
def _randomPort (workers : List Worker) (r : ℚ) : Option Int :=
  (workers.get? (randomIndex workers.length r)).map Worker.port

/-- The business score of one status slot (lines 168–178): the sum
`httpRPM + ioRPM + clientCount` when the slot holds a status object, and
`Infinity` (here `⊤`) when the slot is `null`. -/
def business : StatusSlot → WithTop Int
  | some st => ((st.httpRPM + st.ioRPM + st.clientCount : Int) : WithTop Int)
  | none => ⊤

/-- The `for (var i in this.workerStatuses)` loop of
`calculateLeastBusyPort` (lines 168–184), threading the two mutable
variables `minBusiness` (initially `Infinity`) and `leastBusyPort`
(initially `undefined`, modelled `none`). -/
def calcLoop : Statuses → WithTop Int → Option Int → WithTop Int × Option Int
  | [], minBusiness, leastBusyPort => (minBusiness, leastBusyPort)
  | (port, slot) :: rest, minBusiness, leastBusyPort =>
      let b := business slot
      if b < minBusiness then
        calcLoop rest b (some port)
      else
        calcLoop rest minBusiness leastBusyPort

/-- Model of `LoadBalancer.prototype.calculateLeastBusyPort` (lines 163–190) as the
value it stores into `this.leastBusyPort`: the loop result, except that
when `minBusiness` is still `Infinity` the result is `this._randomPort()`.
`none` can only arise from the `_randomPort` fault on an empty pool. -/
def calculateLeastBusyPort (statuses : Statuses) (workers : List Worker)
    (r : ℚ) : Option Int :=
  let res := calcLoop statuses ⊤ none
  if res.1 = ⊤ then _randomPort workers r else res.2

/-- Truthiness of `err.message` in JS: `!err.message` is true when the
field is missing (`none`) or the empty string. -/
def msgFalsy : Option String → Bool
  | none => true
  | some m => m = ""

/-- The `_errorDomain` error handler (src/index.js lines 13–17): returns
`true` exactly when the handler re-emits the fault as an `error` event. -/
def domainErrorEmits (message : Option String) : Bool :=
  if msgFalsy message then true
  else
    decide (message ≠ some "read ECONNRESET") &&
      decide (message ≠ some "socket hang up")

/-! ### Session destination decoder (`_parseDest`, src/index.js lines 249–285) -/

/-- A resolved forwarding destination, as built at lines 116–119, 135–138
and 279–282. -/
structure Dest where
  host : String
  port : Int
deriving DecidableEq, Repr

/-- The incoming request, restricted to the fields `_parseDest` reads:
`req.headers.host`, `req.headers.cookie` and `req.url`. A missing header
is `none`. -/
structure Request where
  host : Option String
  cookie : Option String
  url : String
deriving DecidableEq, Repr

/-- JS truthiness of an optional string: `undefined` and the empty string
are falsy. -/
def truthy : Option String → Bool
  | none => false
  | some s => s != ""

/-- The `query` component of `url.parse(req.url)` for the path-style URLs
a server sees in `req.url`: the text after the first `?`, excluding a
trailing fragment; `none` when there is no `?` before the fragment. -/
def extractQuery (u : List Char) : Option (List Char) :=
  let beforeHash := u.takeWhile (fun c => c != '#')
  if beforeHash.contains '?' then
    some (beforeHash.dropWhile (fun c => c != '?')).tail
  else
    none

/-- The character class `[A-Za-z0-9]` of `_sidRegex`
(src/index.js line 38). `Char.isAlpha` is exactly ASCII `[A-Za-z]`. -/
def isAlnumJS (c : Char) : Bool :=
  c.isAlpha || c.isDigit

/-- Matching `s?sid=([^;]*)` at the head of the text: the greedy optional
`s` tries `ssid=` first, then `sid=`; on success the capture group is the
run of characters up to the next `;`. -/
def sidValue : List Char → Option (List Char)
  | 's' :: 's' :: 'i' :: 'd' :: '=' :: rest =>
      some (rest.takeWhile (fun c => c != ';'))
  | 's' :: 'i' :: 'd' :: '=' :: rest =>
      some (rest.takeWhile (fun c => c != ';'))
  | _ => none

/-- Scanning for the `([^A-Za-z0-9])s?sid=` alternative of `_sidRegex` at
successive start positions, leftmost first: a match consumes one
non-alphanumeric boundary character and then `s?sid=`. -/
def sidScan : List Char → Option (List Char)
  | [] => none
  | c :: rest =>
      if isAlnumJS c then sidScan rest
      else
        match sidValue rest with
        | some v => some v
        | none => sidScan rest

/-- Model of `text.match(this._sidRegex)`, returning capture group 2. The `^`
alternative of the boundary group can only fire at position 0 and only
when the text starts with `s?sid=` (an alphanumeric head, so the two
alternatives are disjoint there); every later position needs the
non-alphanumeric boundary character. -/
def sidMatch (l : List Char) : Option (List Char) :=
  match sidValue l with
  | some v => some v
  | none => sidScan l

/-- Model of `routString.match(this._destRegex)` with
`_destRegex = ^([^_]*)_([^_]*)_([^_]*)_` (src/index.js line 37): the three
captured segments, or `none` when the token does not carry three
`_`-terminated segments at its start. -/
def destMatch (l : List Char) : Option (List Char × List Char × List Char) :=
  let s1 := l.takeWhile (fun c => c != '_')
  match l.dropWhile (fun c => c != '_') with
  | '_' :: r1 =>
      let s2 := r1.takeWhile (fun c => c != '_')
      match r1.dropWhile (fun c => c != '_') with
      | '_' :: r2 =>
          let s3 := r2.takeWhile (fun c => c != '_')
          match r2.dropWhile (fun c => c != '_') with
          | '_' :: _ => some (s1, s2, s3)
          | _ => none
      | _ => none
  | _ => none

/-- Value of one decimal digit, `none` for any other character. -/
def decDigitVal : Char → Option Nat :=
  fun c => if c.isDigit then some (c.toNat - 48) else none

/-- Value of one hexadecimal digit, `none` for any other character. -/
def hexDigitVal : Char → Option Nat :=
  fun c =>
    if c.isDigit then some (c.toNat - 48)
    else if 'a' ≤ c ∧ c ≤ 'f' then some (c.toNat - 87)
    else if 'A' ≤ c ∧ c ≤ 'F' then some (c.toNat - 55)
    else none

/-- Accumulate the value of the longest digit run at the head of the
text; the accumulator stays `none` until the first digit, so a text with
no leading digit yields `none` (JS `NaN`). -/
def parseDigits (base : Nat) (val : Char → Option Nat) :
    List Char → Option Nat → Option Nat
  | [], acc => acc
  | c :: rest, acc =>
      match val c with
      | some d => parseDigits base val rest (some (acc.getD 0 * base + d))
      | none => acc

/-- The unsigned part of JS `parseInt` with no radix argument: a `0x`/`0X`
head selects base 16, anything else is parsed base 10; no digit after the
(possibly stripped) head means `NaN` (`none`). -/
def parseUnsignedJS : List Char → Option Nat
  | '0' :: 'x' :: rest => parseDigits 16 hexDigitVal rest none
  | '0' :: 'X' :: rest => parseDigits 16 hexDigitVal rest none
  | l => parseDigits 10 decDigitVal l none

/-- JS `parseInt(text)` (src/index.js line 281): strip leading whitespace,
read an optional sign, then the longest digit run; `none` models `NaN`. -/
def parseIntJS (l : List Char) : Option Int :=
  match l.dropWhile Char.isWhitespace with
  | '-' :: rest => (parseUnsignedJS rest).map (fun n => -(n : Int))
  | '+' :: rest => (parseUnsignedJS rest).map (fun n => (n : Int))
  | t => (parseUnsignedJS t).map (fun n => (n : Int))

/-- Lines 250–277 of `_parseDest`: everything up to and including the
`_destRegex` match, returning segment 2 of the token (the encoded port
text). None of this part reads any balancer state. -/
def _parseDestSeg2 (req : Request) : Option (List Char) :=
  if truthy req.host = false then none
  else
    let query := (extractQuery req.url.data).getD []
    let cookie := match req.cookie with
      | some c => c.data
      | none => []
    if query = [] ∧ cookie = [] then none
    else
      match
        (match sidMatch query with
         | some m => some m
         | none => sidMatch cookie) with
      | none => none
      | some routString =>
          match destMatch routString with
          | none => none
          | some (_, s2, _) => some s2

/-- Model of `LoadBalancer.prototype._parseDest` (lines 249–285). The final port is
`parseInt(destMatch[2]) || this.leastBusyPort`: the fallback fires when
`parseInt` yields `NaN` (`none`) and also when it yields `0`, which is
falsy in JS. -/
def _parseDest (req : Request) (leastBusyPort : Int) : Option Dest :=
  match _parseDestSeg2 req with
  | none => none
  | some s2 =>
      some { host := "localhost",
             port :=
               match parseIntJS s2 with
               | some n => if n = 0 then leastBusyPort else n
               | none => leastBusyPort }

/-! ### Dispatch destination resolution (lines 109–144) -/

/-- The destination computed by `_proxyHTTP` (lines 109–125) before it is
handed to `this._proxy.web`: a decoded hint whose port is not a key of
`destPorts` has its port overridden by `_randomPort`; no hint at all falls
back to `localhost:leastBusyPort`. `none` models the `_randomPort` fault
on an empty pool. -/
def _proxyHTTPDest (req : Request) (destPorts : List Int) (leastBusyPort : Int)
    (workers : List Worker) (r : ℚ) : Option Dest :=
  match _parseDest req leastBusyPort with
  | some dest =>
      if dest.port ∈ destPorts then some dest
      else (_randomPort workers r).map (fun p => { dest with port := p })
  | none => some { host := "localhost", port := leastBusyPort }

/-- The destination computed by `_proxyWebSocket` (lines 127–144) before
it is handed to `this._proxy.ws`; the source duplicates the resolution
logic of `_proxyHTTP` verbatim. -/
def _proxyWebSocketDest (req : Request) (destPorts : List Int) (leastBusyPort : Int)
    (workers : List Worker) (r : ℚ) : Option Dest :=
  match _parseDest req leastBusyPort with
  | some dest =>
      if dest.port ∈ destPorts then some dest
      else (_randomPort workers r).map (fun p => { dest with port := p })
  | none => some { host := "localhost", port := leastBusyPort }

/-! ### Health monitor cycle (`_updateStatus`, src/index.js lines 192–247) -/

/-- Keyed assignment `workerStatuses[port] = slot`: insert or overwrite,
keeping the association list in ascending key order (the iteration order a
JS object gives integer-like keys). -/
def setStatusSlot : Statuses → Int → StatusSlot → Statuses
  | [], p, v => [(p, v)]
  | (q, w) :: rest, p, v =>
      if p = q then (p, v) :: rest
      else if p < q then (p, v) :: (q, w) :: rest
      else (q, w) :: setStatusSlot rest p v

/-- Outcome of one worker's status request within one polling cycle:
either the socket timeout fires (`req.abort()`, lines 236–241, after which
the response `end` handler never runs), or the response ends with a body
that parses to `some st`, or is empty/unparseable (`none`, stored as
`null` at lines 224 and 227). -/
inductive PollResult where
  | timeout
  | response (body : StatusSlot)
deriving DecidableEq, Repr

/-- The status-slot writes a cycle performs (lines 218–229): one write per
worker whose request completed; a timed-out request writes nothing. -/
def runPolls : Statuses → List (Worker × PollResult) → Statuses
  | statuses, [] => statuses
  | statuses, (_, PollResult.timeout) :: rest => runPolls statuses rest
  | statuses, (w, PollResult.response body) :: rest =>
      runPolls (setStatusSlot statuses w.port body) rest

/-- The count `statusesRead` at the end of the cycle: only a completed response runs
`++statusesRead` (line 230); a timed-out request never does. -/
def completions (results : List PollResult) : Nat :=
  results.countP (fun pr =>
    match pr with
    | PollResult.timeout => false
    | PollResult.response _ => true)

/-- Whether the cycle ever reaches `calculateLeastBusyPort.call(self)`
(lines 230–232): some completion must push `statusesRead` up to
`workerCount`. -/
def cycleAggregates (workers : List Worker) (results : List PollResult) : Bool :=
  decide (1 ≤ completions results) && decide (workers.length ≤ completions results)

/-! ### The balancer state and its transitions -/

/-- The mutable state of a `LoadBalancer` instance that the claims are
about. `activeTimers`/`nextTimer` model the `setInterval` handles: each
`setWorkers` call appends a fresh handle and the source never calls
`clearInterval`. `initialPick` and `everPorts` are ghost fields recording
the constructor's random pick and every port ever configured; no source
code reads them. -/
structure BalancerState where
  workers : List Worker
  destPorts : List Int
  workerStatuses : Statuses
  leastBusyPort : Option Int
  activeTimers : List Nat
  nextTimer : Nat
  initialPick : Option Int
  everPorts : List Int
deriving DecidableEq, Repr

/-- Model of `LoadBalancer.prototype.setWorkers` (lines 146–156): rebuild
`destPorts` from the new list, store the list, and schedule one more
periodic `_updateStatus` timer — the previously scheduled interval is not
cleared. -/
def setWorkers (s : BalancerState) (workers : List Worker) : BalancerState :=
  { s with
    destPorts := workers.map Worker.port,
    workers := workers,
    activeTimers := s.activeTimers ++ [s.nextTimer],
    nextTimer := s.nextTimer + 1,
    everPorts := s.everPorts ++ workers.map Worker.port }

/-- The constructor (lines 9–79) restricted to the modelled state:
`setWorkers(options.workers)` at line 40, then `workerStatuses = {}` and
`leastBusyPort = this._randomPort()` at lines 45–46, with `r` the
constructor's random draw (also recorded in the ghost `initialPick`). -/
def initState (workers : List Worker) (r : ℚ) : BalancerState :=
  let s0 : BalancerState :=
    { workers := [], destPorts := [], workerStatuses := [],
      leastBusyPort := none, activeTimers := [], nextTimer := 0,
      initialPick := none, everPorts := [] }
  let s1 := setWorkers s0 workers
  { s1 with
    workerStatuses := [],
    leastBusyPort := _randomPort workers r,
    initialPick := _randomPort workers r }

/-- Effect of one status-slot write on the state. -/
def statusWriteEffect (s : BalancerState) (p : Int) (slot : StatusSlot) :
    BalancerState :=
  { s with workerStatuses := setStatusSlot s.workerStatuses p slot }

/-- Effect of one `calculateLeastBusyPort.call(self)` (line 231) on the
state, with `r` the random draw used if every slot is `null`. -/
def aggregateEffect (s : BalancerState) (r : ℚ) : BalancerState :=
  { s with
    leastBusyPort := calculateLeastBusyPort s.workerStatuses s.workers r }

/-- One whole polling cycle `_updateStatus` (lines 192–247), given the
per-worker outcomes in worker order: perform the completed writes, then
aggregate only if the completion count reached `workerCount`. -/
def _updateStatus (s : BalancerState) (results : List PollResult) (r : ℚ) :
    BalancerState :=
  let s' := { s with workerStatuses := runPolls s.workerStatuses (s.workers.zip results) }
  if cycleAggregates s.workers results then aggregateEffect s' r else s'

/-- The event-loop transitions that mutate routing state. Status writes
are allowed for any ever-configured port: a write belongs to some cycle
that started when its worker was configured, and overlapping or stale
cycles (spec §5–§6) can land writes for a formerly configured pool. -/
inductive Step : BalancerState → BalancerState → Prop where
  | reconfigure (s : BalancerState) (workers : List Worker)
      (hw : workers ≠ []) : Step s (setWorkers s workers)
  | statusWrite (s : BalancerState) (p : Int) (slot : StatusSlot)
      (hp : p ∈ s.everPorts) : Step s (statusWriteEffect s p slot)
  | aggregate (s : BalancerState) (r : ℚ) (hr0 : 0 ≤ r) (hr1 : r < 1) :
      Step s (aggregateEffect s r)

/-- States reachable from a constructor call on a non-empty pool. -/
inductive Reachable : BalancerState → Prop where
  | init (workers : List Worker) (r : ℚ) (hw : workers ≠ [])
      (hr0 : 0 ≤ r) (hr1 : r < 1) : Reachable (initState workers r)
  | step (s s' : BalancerState) (hs : Reachable s) (hstep : Step s s') :
      Reachable s'

/-! ### Specification-side selection (refinement target for the
least-busy claims) -/

/-- Business score as the spec words it: `clientCount + httpRPM + ioRPM`
if status is present, else `+∞`. -/
def specBusiness : StatusSlot → WithTop Int
  | some st => ((st.clientCount + st.httpRPM + st.ioRPM : Int) : WithTop Int)
  | none => ⊤

/-- The minimum business score over a status snapshot (`⊤` = `+∞` when
the snapshot is empty or every score is `+∞`). -/
def scoresMin (statuses : Statuses) : WithTop Int :=
  statuses.foldr (fun e acc => min (specBusiness e.2) acc) ⊤

/-- The spec's selection: the port of the first worker, in iteration
order, whose business score attains the minimum. -/
def specLeastBusy (statuses : Statuses) : Option Int :=
  (statuses.find? (fun e => decide (specBusiness e.2 = scoresMin statuses))).map
    Prod.fst

/-! ### Invariant and concrete scenarios used by the claims -/

/-- The routing-state invariant maintained by every reachable state: the
pool is non-empty, every configured port and every status key is an
ever-configured port, and `leastBusyPort` holds an ever-configured port. -/
def Inv (s : BalancerState) : Prop :=
  s.workers ≠ [] ∧
  (∀ p ∈ s.workers.map Worker.port, p ∈ s.everPorts) ∧
  (∀ p ∈ s.workerStatuses.map Prod.fst, p ∈ s.everPorts) ∧
  (∃ p, s.leastBusyPort = some p ∧ p ∈ s.everPorts)

/-- A two-worker balancer mid-run: worker 8081 has a stale status from an
earlier cycle and is the current least-busy pick. -/
def c3State : BalancerState :=
  { workers := [⟨8081⟩, ⟨8082⟩], destPorts := [8081, 8082],
    workerStatuses := [(8081, some ⟨5, 5, 5⟩)], leastBusyPort := some 8081,
    activeTimers := [0], nextTimer := 1, initialPick := some 8081,
    everPorts := [8081, 8082] }

/-- A polling cycle in which worker 8081's status request hits the socket
timeout while worker 8082 answers with a healthy status. -/
def c3Results : List PollResult :=
  [PollResult.timeout, PollResult.response (some ⟨0, 0, 0⟩)]

/-- A concrete run: construct on pool `[8081, 8083]` (random initial pick
`8083`), receive a status for `8081`, reconfigure the pool to `[8082]`,
receive a status for `8082`, and aggregate. -/
def c8Trace : BalancerState :=
  aggregateEffect
    (statusWriteEffect
      (setWorkers
        (statusWriteEffect (initState [⟨8081⟩, ⟨8083⟩] (1/2)) 8081
          (some ⟨0, 0, 0⟩))
        [⟨8082⟩])
      8082 (some ⟨9, 9, 9⟩))
    0

theorem business_eq_spec (slot : StatusSlot) : business slot = specBusiness slot := by
  cases slot with
  | none => rfl
  | some st =>
      show ((st.httpRPM + st.ioRPM + st.clientCount : Int) : WithTop Int) = _
      exact congrArg _ (by ring)

theorem scoresMin_nil : scoresMin [] = ⊤ := rfl

theorem scoresMin_cons (e : Int × StatusSlot) (rest : Statuses) :
    scoresMin (e :: rest) = min (specBusiness e.2) (scoresMin rest) := rfl

theorem calcLoop_cons (e : Int × StatusSlot) (rest : Statuses)
    (m : WithTop Int) (p : Option Int) :
    calcLoop (e :: rest) m p =
      if business e.2 < m then calcLoop rest (business e.2) (some e.1)
      else calcLoop rest m p := by
  obtain ⟨q, slot⟩ := e
  rfl

theorem calcLoop_fst (l : Statuses) (m : WithTop Int) (p : Option Int) :
    (calcLoop l m p).1 = min m (scoresMin l) := by
  induction l generalizing m p with
  | nil => simp [calcLoop, scoresMin_nil, min_eq_left le_top]
  | cons e rest ih =>
      rw [calcLoop_cons]
      simp only [business_eq_spec]
      rw [scoresMin_cons]
      by_cases h : specBusiness e.2 < m
      · rw [if_pos h, ih,
          min_eq_right (le_trans (min_le_left _ _) (le_of_lt h))]
      · rw [if_neg h, ih, ← min_assoc, min_eq_left (not_lt.mp h)]

theorem calcLoop_snd (l : Statuses) (m : WithTop Int) (p : Option Int) :
    (calcLoop l m p).2 =
      if scoresMin l < m then
        (l.find? (fun e => decide (specBusiness e.2 = scoresMin l))).map Prod.fst
      else p := by
  induction l generalizing m p with
  | nil => simp [calcLoop, scoresMin_nil]
  | cons e rest ih =>
      rw [calcLoop_cons]
      simp only [business_eq_spec]
      rw [scoresMin_cons]
      by_cases h : specBusiness e.2 < m
      · rw [if_pos h, ih]
        by_cases hr : scoresMin rest < specBusiness e.2
        · rw [if_pos hr,
            if_pos (lt_of_le_of_lt (min_le_left _ _) h),
            min_eq_right (le_of_lt hr),
            List.find?_cons_of_neg _ (by simp [ne_of_gt hr])]
        · rw [if_neg hr,
            if_pos (lt_of_le_of_lt (min_le_left _ _) h),
            min_eq_left (not_lt.mp hr),
            List.find?_cons_of_pos _ (by simp)]
          rfl
      · rw [if_neg h, ih]
        have hm : m ≤ specBusiness e.2 := not_lt.mp h
        by_cases hs : scoresMin rest < m
        · have hsb : scoresMin rest < specBusiness e.2 := lt_of_lt_of_le hs hm
          rw [if_pos hs, if_pos (lt_of_le_of_lt (min_le_right _ _) hs),
            min_eq_right (le_of_lt hsb),
            List.find?_cons_of_neg _ (by simp [ne_of_gt hsb])]
        · rw [if_neg hs,
            if_neg (not_lt.mpr (le_min hm (not_lt.mp hs)))]

/-- Refinement: `calculateLeastBusyPort` matches the spec's selection: it is the
first minimal-business port unless every score is `+∞`, in which case it
is the random draw. -/
theorem calculateLeastBusyPort_eq (statuses : Statuses) (workers : List Worker)
    (r : ℚ) :
    calculateLeastBusyPort statuses workers r =
      if scoresMin statuses = ⊤ then _randomPort workers r
      else specLeastBusy statuses := by
  show (if (calcLoop statuses ⊤ none).1 = ⊤ then _randomPort workers r
        else (calcLoop statuses ⊤ none).2) = _
  rw [calcLoop_fst, calcLoop_snd, min_eq_right le_top]
  by_cases h : scoresMin statuses = ⊤
  · rw [if_pos h, if_pos h]
  · rw [if_neg h, if_neg h, if_pos (lt_top_iff_ne_top.mpr h)]
    rfl

theorem scoresMin_le_of_mem {l : Statuses} {e : Int × StatusSlot}
    (he : e ∈ l) : scoresMin l ≤ specBusiness e.2 := by
  induction l with
  | nil => cases he
  | cons a rest ih =>
      rw [scoresMin_cons]
      rcases List.mem_cons.mp he with h | h
      · subst h; exact min_le_left _ _
      · exact le_trans (min_le_right _ _) (ih h)

theorem scoresMin_eq_top (l : Statuses) :
    scoresMin l = ⊤ ↔ ∀ e ∈ l, specBusiness e.2 = ⊤ := by
  induction l with
  | nil => simp [scoresMin_nil]
  | cons a rest ih => simp [scoresMin_cons, min_eq_top, ih]

theorem scoresMin_attained {l : Statuses} (h : scoresMin l ≠ ⊤) :
    ∃ e ∈ l, specBusiness e.2 = scoresMin l := by
  induction l with
  | nil => exact absurd scoresMin_nil h
  | cons a rest ih =>
      rw [scoresMin_cons]
      by_cases ha : specBusiness a.2 ≤ scoresMin rest
      · exact ⟨a, List.mem_cons_self a rest, (min_eq_left ha).symm⟩
      · have hr : scoresMin rest ≠ ⊤ := by
          intro ht
          exact ha (ht ▸ le_top)
        obtain ⟨e, hmem, heq⟩ := ih hr
        exact ⟨e, List.mem_cons_of_mem a hmem,
          heq.trans (min_eq_right (le_of_not_le ha)).symm⟩

/-- When some score is finite, the spec selection succeeds and yields a
port of the snapshot. -/
theorem specLeastBusy_mem {l : Statuses} (h : scoresMin l ≠ ⊤) :
    ∃ p, specLeastBusy l = some p ∧ p ∈ l.map Prod.fst := by
  obtain ⟨e, hmem, heq⟩ := scoresMin_attained h
  have : (l.find? (fun e => decide (specBusiness e.2 = scoresMin l))).isSome := by
    rw [List.find?_isSome]
    exact ⟨e, hmem, by simp [heq]⟩
  obtain ⟨a, ha⟩ := Option.isSome_iff_exists.mp this
  exact ⟨a.1, by rw [specLeastBusy, ha]; rfl,
    List.mem_map_of_mem Prod.fst (List.mem_of_find?_eq_some ha)⟩

/-! ### Helper lemmas about `_randomPort` -/

theorem _randomPort_mem {workers : List Worker} {r : ℚ} {p : Int}
    (h : _randomPort workers r = some p) : p ∈ workers.map Worker.port := by
  rw [_randomPort] at h
  obtain ⟨w, hw, hwp⟩ := Option.map_eq_some'.mp h
  exact hwp ▸ List.mem_map_of_mem Worker.port (List.get?_mem hw)

theorem randomIndex_lt {len : Nat} {r : ℚ} (hlen : 0 < len)
    (hr0 : 0 ≤ r) (hr1 : r < 1) : randomIndex len r < len := by
  have hlen' : (0 : ℚ) < (len : ℚ) := by exact_mod_cast hlen
  have hub : r * (len : ℚ) < (len : ℚ) := by
    calc r * (len : ℚ) < 1 * (len : ℚ) := by
          exact mul_lt_mul_of_pos_right hr1 hlen'
      _ = (len : ℚ) := one_mul _
  have h1 : (0 : ℤ) ≤ ⌊r * (len : ℚ)⌋ :=
    Int.le_floor.mpr (by exact_mod_cast mul_nonneg hr0 (le_of_lt hlen'))
  have h2 : ⌊r * (len : ℚ)⌋ < (len : ℤ) :=
    Int.floor_lt.mpr (by exact_mod_cast hub)
  rw [randomIndex]
  omega

theorem _randomPort_isSome {workers : List Worker} {r : ℚ}
    (hw : workers ≠ []) (hr0 : 0 ≤ r) (hr1 : r < 1) :
    ∃ w ∈ workers, _randomPort workers r = some w.port := by
  have hlen : 0 < workers.length := List.length_pos.mpr hw
  have hidx := randomIndex_lt hlen hr0 hr1
  refine ⟨workers.get ⟨randomIndex workers.length r, hidx⟩,
    List.get_mem _ _ _, ?_⟩
  rw [_randomPort, List.get?_eq_get hidx]
  rfl

theorem _randomPort_nil (r : ℚ) : _randomPort [] r = none := rfl

/-! ### Invariant preservation -/

theorem setStatusSlot_keys (l : Statuses) (p : Int) (v : StatusSlot) :
    ∀ q ∈ (setStatusSlot l p v).map Prod.fst, q = p ∨ q ∈ l.map Prod.fst := by
  induction l with
  | nil =>
      intro q hq
      simp [setStatusSlot] at hq
      exact Or.inl hq
  | cons a rest ih =>
      obtain ⟨k, w⟩ := a
      intro q hq
      rw [setStatusSlot] at hq
      by_cases h1 : p = k
      · rw [if_pos h1] at hq
        simp only [List.map_cons, List.mem_cons] at hq ⊢
        tauto
      · rw [if_neg h1] at hq
        by_cases h2 : p < k
        · rw [if_pos h2] at hq
          simp only [List.map_cons, List.mem_cons] at hq ⊢
          tauto
        · rw [if_neg h2] at hq
          simp only [List.map_cons, List.mem_cons] at hq ⊢
          rcases hq with h | h
          · tauto
          · rcases ih q h with h' | h'
            · exact Or.inl h'
            · tauto

theorem inv_init (workers : List Worker) (r : ℚ) (hw : workers ≠ [])
    (hr0 : 0 ≤ r) (hr1 : r < 1) : Inv (initState workers r) := by
  obtain ⟨w, hmem, heq⟩ := _randomPort_isSome hw hr0 hr1
  refine ⟨hw, ?_, ?_, w.port, heq, ?_⟩
  · intro p hp
    simpa [initState, setWorkers] using hp
  · intro p hp
    simp [initState, setWorkers] at hp
  · simpa [initState, setWorkers] using
      List.mem_map_of_mem Worker.port hmem

theorem inv_step {s s' : BalancerState} (hinv : Inv s) (hstep : Step s s') :
    Inv s' := by
  obtain ⟨hw, hports, hkeys, q, hlbp, hever⟩ := hinv
  cases hstep with
  | reconfigure workers hw' =>
      refine ⟨hw', ?_, ?_, q, hlbp, ?_⟩
      · intro p hp
        simp only [setWorkers, List.mem_append]
        right
        simpa [setWorkers] using hp
      · intro p hp
        simp only [setWorkers, List.mem_append]
        left
        exact hkeys p (by simpa [setWorkers] using hp)
      · simp only [setWorkers, List.mem_append]
        left
        exact hever
  | statusWrite p slot hp =>
      refine ⟨hw, hports, ?_, q, hlbp, hever⟩
      intro x hx
      rcases setStatusSlot_keys _ _ _ x (by simpa [statusWriteEffect] using hx)
        with h | h
      · exact h ▸ hp
      · exact hkeys x h
  | aggregate r hr0 hr1 =>
      refine ⟨hw, hports, hkeys, ?_⟩
      show ∃ p, calculateLeastBusyPort s.workerStatuses s.workers r = some p ∧
        p ∈ s.everPorts
      rw [calculateLeastBusyPort_eq]
      by_cases htop : scoresMin s.workerStatuses = ⊤
      · rw [if_pos htop]
        obtain ⟨w, hmem, heq⟩ := _randomPort_isSome hw hr0 hr1
        exact ⟨w.port, heq, hports _ (List.mem_map_of_mem Worker.port hmem)⟩
      · rw [if_neg htop]
        obtain ⟨p', hsome, hmem⟩ := specLeastBusy_mem htop
        exact ⟨p', hsome, hkeys _ hmem⟩

theorem inv_reachable {s : BalancerState} (hs : Reachable s) : Inv s := by
  induction hs with
  | init workers r hw hr0 hr1 => exact inv_init workers r hw hr0 hr1
  | step s s' _ hstep ih => exact inv_step ih hstep

/-! ### Claim theorems -/

/-- C1: `calculateLeastBusyPort` scores each listed worker with
`clientCount + httpRPM + ioRPM` when its status is present and `+∞` when
it is absent, stores the port of the first minimum in iteration order,
stores a random configured worker's port when every score is `+∞`, and on
the snapshot `8081 ↦ absent, 8082 ↦ (1,2,3), 8083 ↦ (0,0,0)` selects
`8083`. -/
theorem c1_least_busy_selection (statuses : Statuses) (workers : List Worker)
    (r : ℚ) (hw : workers ≠ []) (hr0 : 0 ≤ r) (hr1 : r < 1) :
    (scoresMin statuses ≠ ⊤ →
      calculateLeastBusyPort statuses workers r = specLeastBusy statuses) ∧
    ((∀ e ∈ statuses, business e.2 = ⊤) →
      calculateLeastBusyPort statuses workers r = _randomPort workers r ∧
      ∃ w ∈ workers, calculateLeastBusyPort statuses workers r = some w.port) ∧
    calculateLeastBusyPort
        [(8081, none), (8082, some ⟨1, 2, 3⟩), (8083, some ⟨0, 0, 0⟩)]
        workers r = some 8083 := by
  refine ⟨?_, ?_, ?_⟩
  · intro h
    rw [calculateLeastBusyPort_eq, if_neg h]
  · intro h
    have htop : scoresMin statuses = ⊤ :=
      (scoresMin_eq_top statuses).mpr (fun e he => by
        rw [← business_eq_spec]
        exact h e he)
    rw [calculateLeastBusyPort_eq, if_pos htop]
    exact ⟨rfl, _randomPort_isSome hw hr0 hr1⟩
  · rw [calculateLeastBusyPort_eq, if_neg (by decide)]
    decide

/-- Witness for C1: concrete snapshot, pool and draw. -/
theorem c1_least_busy_selection_witness :
    calculateLeastBusyPort [((8081 : Int), some ⟨0, 0, 0⟩)] [⟨8081⟩] 0 =
      specLeastBusy [((8081 : Int), some ⟨0, 0, 0⟩)] :=
  (c1_least_busy_selection [((8081 : Int), some ⟨0, 0, 0⟩)] [⟨8081⟩] 0
    (by decide) (by decide) (by decide)).1 (by decide)

/-- C2: destination resolution is two-tier, identically for plain-request
and protocol-upgrade dispatch: a hint with an unknown port is overridden
with a random known worker's port, a missing hint falls back to
`localhost:leastBusyPort`, and a hint with a known port passes through
unchanged. -/
theorem c2_two_tier_resolution (req : Request) (leastBusyPort : Int)
    (workers : List Worker) (r : ℚ)
    (hw : workers ≠ []) (hr0 : 0 ≤ r) (hr1 : r < 1) :
    (_proxyHTTPDest req (workers.map Worker.port) leastBusyPort workers r =
      _proxyWebSocketDest req (workers.map Worker.port) leastBusyPort workers r) ∧
    (∀ dest, _parseDest req leastBusyPort = some dest →
      dest.port ∉ workers.map Worker.port →
      ∃ w ∈ workers,
        _proxyHTTPDest req (workers.map Worker.port) leastBusyPort workers r =
          some { host := dest.host, port := w.port }) ∧
    (∀ dest, _parseDest req leastBusyPort = some dest →
      dest.port ∈ workers.map Worker.port →
      _proxyHTTPDest req (workers.map Worker.port) leastBusyPort workers r =
        some dest) ∧
    (_parseDest req leastBusyPort = none →
      _proxyHTTPDest req (workers.map Worker.port) leastBusyPort workers r =
        some { host := "localhost", port := leastBusyPort }) := by
  refine ⟨rfl, ?_, ?_, ?_⟩
  · intro dest hdest hnot
    obtain ⟨w, hmem, heq⟩ := _randomPort_isSome hw hr0 hr1
    refine ⟨w, hmem, ?_⟩
    simp only [_proxyHTTPDest, hdest]
    rw [if_neg hnot, heq]
    rfl
  · intro dest hdest hmem
    simp only [_proxyHTTPDest, hdest]
    rw [if_pos hmem]
  · intro hnone
    simp only [_proxyHTTPDest, hnone]

/-- Witness for C2: a request with no session hint resolves to
`localhost:leastBusyPort`. -/
theorem c2_two_tier_resolution_witness :
    _proxyHTTPDest ⟨some "h", none, "/"⟩ ([⟨8081⟩].map Worker.port) 9000
      [(⟨8081⟩ : Worker)] 0 = some { host := "localhost", port := 9000 } :=
  (c2_two_tier_resolution ⟨some "h", none, "/"⟩ 9000 [⟨8081⟩] 0
    (by decide) (by decide) (by decide)).2.2.2 (by decide)

/-- C3, evaluated at the failing input: in a cycle where worker 8081's
poll times out and worker 8082 answers, the cycle never reaches
aggregation (the timed-out poll is never counted as a completion), worker
8081's status slot keeps its stale value instead of degrading to absent,
and `leastBusyPort` is left untouched. -/
theorem c3_timeout_starves_cycle :
    cycleAggregates c3State.workers c3Results = false ∧
    (_updateStatus c3State c3Results 0).workerStatuses =
      [(8081, some ⟨5, 5, 5⟩), (8082, some ⟨0, 0, 0⟩)] ∧
    (_updateStatus c3State c3Results 0).leastBusyPort = some 8081 := by
  decide

/-- C4 counterexample: construction on pool `[8081]` schedules timer `0`;
`setWorkers [8082]` schedules timer `1` without clearing timer `0`, so two
periodic polling timers are active, refuting "the previously scheduled
periodic polling timer no longer fires and exactly one periodic polling
timer is active". -/
theorem c4_counterexample :
    (initState [⟨8081⟩] 0).activeTimers = [0] ∧
    (setWorkers (initState [⟨8081⟩] 0) [⟨8082⟩]).activeTimers = [0, 1] ∧
    0 ∈ (setWorkers (initState [⟨8081⟩] 0) [⟨8082⟩]).activeTimers ∧
    (setWorkers (initState [⟨8081⟩] 0) [⟨8082⟩]).activeTimers.length ≠ 1 := by
  decide

/-- C4 amended: after `setWorkers`, `destPorts` holds exactly the ports of
the new list and one more periodic polling timer is scheduled, but the
previously scheduled timers remain active (the source never calls
`clearInterval`). -/
theorem c4_setWorkers (s : BalancerState) (workers : List Worker) :
    (setWorkers s workers).destPorts = workers.map Worker.port ∧
    (setWorkers s workers).workers = workers ∧
    (setWorkers s workers).activeTimers = s.activeTimers ++ [s.nextTimer] :=
  ⟨rfl, rfl, rfl⟩

/-- C5 counterexample: on the all-absent snapshot `[(8081, null)]` with
pool `[8081, 8082]`, a first aggregation drawing `r = 0` stores `8081`
while a second aggregation on the unchanged snapshot drawing `r = 1/2`
stores `8082`: rerunning the aggregation can change `leastBusyPort`. -/
theorem c5_counterexample :
    calculateLeastBusyPort [((8081 : Int), none)] [⟨8081⟩, ⟨8082⟩] 0 =
      some 8081 ∧
    calculateLeastBusyPort [((8081 : Int), none)] [⟨8081⟩, ⟨8082⟩] (1/2) =
      some 8082 ∧
    some (8081 : Int) ≠ some (8082 : Int) := by
  have h1 : _randomPort [(⟨8081⟩ : Worker), ⟨8082⟩] 0 = some 8081 := by
    rw [_randomPort, randomIndex]
    norm_num
  have h2 : _randomPort [(⟨8081⟩ : Worker), ⟨8082⟩] (1/2) = some 8082 := by
    rw [_randomPort, randomIndex]
    norm_num
  refine ⟨?_, ?_, by decide⟩
  · rw [calculateLeastBusyPort_eq, if_pos (by decide)]
    exact h1
  · rw [calculateLeastBusyPort_eq, if_pos (by decide)]
    exact h2

/-- C5 amended: whenever at least one worker's status is present in the
snapshot, aggregation is a deterministic function of the snapshot, so
rerunning it on the unchanged snapshot yields the same `leastBusyPort`;
only the all-absent snapshot draws a fresh random port. -/
theorem c5_aggregation_deterministic (statuses : Statuses)
    (workers : List Worker) (r1 r2 : ℚ)
    (hpresent : ∃ e ∈ statuses, e.2 ≠ none) :
    calculateLeastBusyPort statuses workers r1 =
      calculateLeastBusyPort statuses workers r2 := by
  obtain ⟨e, hmem, hne⟩ := hpresent
  have htop : scoresMin statuses ≠ ⊤ := by
    intro h
    have he := (scoresMin_eq_top statuses).mp h e hmem
    cases hslot : e.2 with
    | none => exact hne hslot
    | some st =>
        rw [hslot] at he
        simp [specBusiness] at he
  rw [calculateLeastBusyPort_eq, calculateLeastBusyPort_eq, if_neg htop,
    if_neg htop]

/-- Witness for C5 (amended): a present status makes two runs with
different draws agree. -/
theorem c5_aggregation_deterministic_witness :
    calculateLeastBusyPort [((8081 : Int), some ⟨0, 0, 0⟩)] [⟨8081⟩] 0 =
      calculateLeastBusyPort [((8081 : Int), some ⟨0, 0, 0⟩)] [⟨8081⟩] (1/2) :=
  c5_aggregation_deterministic [((8081 : Int), some ⟨0, 0, 0⟩)] [⟨8081⟩] 0
    (1/2) (by decide)

/-- C6 counterexample: in the token `AAA_0_ZZZ_x`, segment 2 `"0"` parses
as the integer `0`, yet the decoder substitutes the current
`leastBusyPort` (here `8082`) because `0` is falsy in
`parseInt(...) || this.leastBusyPort`, refuting "the current
leastBusyPort is substituted as the port only when integer parsing of
segment2 fails". -/
theorem c6_counterexample :
    parseIntJS "0".data = some 0 ∧
    _parseDestSeg2 ⟨some "localhost", some "sid=AAA_0_ZZZ_x", "/"⟩ =
      some "0".data ∧
    _parseDest ⟨some "localhost", some "sid=AAA_0_ZZZ_x", "/"⟩ 8082 =
      some { host := "localhost", port := 8082 } ∧
    (8082 : Int) ≠ 0 := by
  decide

/-- C6 amended: for a token matching the three-segment destination
encoding, the decoder returns the integer parsed from segment 2 whenever
that integer is nonzero; the current `leastBusyPort` is substituted both
when parsing fails and when the parsed integer is `0` (falsy). -/
theorem c6_port_parse (req : Request) (s2 : List Char) (lbp : Int)
    (hseg : _parseDestSeg2 req = some s2) :
    (∀ n : Int, parseIntJS s2 = some n → n ≠ 0 →
      _parseDest req lbp = some { host := "localhost", port := n }) ∧
    (parseIntJS s2 = some 0 →
      _parseDest req lbp = some { host := "localhost", port := lbp }) ∧
    (parseIntJS s2 = none →
      _parseDest req lbp = some { host := "localhost", port := lbp }) := by
  refine ⟨fun n hn hn0 => ?_, fun h0 => ?_, fun hnan => ?_⟩
  · simp [_parseDest, hseg, hn, hn0]
  · simp [_parseDest, hseg, h0]
  · simp [_parseDest, hseg, hnan]

/-- Witness for C6 (amended): token `AAA_8081_ZZZ_xyz` routes to port
`8081` regardless of the current `leastBusyPort`. -/
theorem c6_port_parse_witness :
    _parseDest ⟨some "localhost", some "sid=AAA_8081_ZZZ_xyz", "/"⟩ 9000 =
      some { host := "localhost", port := 8081 } :=
  (c6_port_parse ⟨some "localhost", some "sid=AAA_8081_ZZZ_xyz", "/"⟩
    "8081".data 9000 (by decide)).1 8081 (by decide) (by decide)

/-- C7 counterexample: on the cookie `ssid=BBB_notanumber_CCC_` the
decoder's result differs between two balancer states that differ only in
`leastBusyPort`, refuting "running the decoder under any two balancer
states yields the same result". -/
theorem c7_counterexample :
    _parseDest ⟨some "localhost", some "ssid=BBB_notanumber_CCC_", "/"⟩ 8081 =
      some { host := "localhost", port := 8081 } ∧
    _parseDest ⟨some "localhost", some "ssid=BBB_notanumber_CCC_", "/"⟩ 8082 =
      some { host := "localhost", port := 8082 } ∧
    some ({ host := "localhost", port := 8081 } : Dest) ≠
      some ({ host := "localhost", port := 8082 } : Dest) := by
  decide

/-- C7 amended: the decoder reads balancer state only through
`leastBusyPort`, and only on the falsy-parse fallback path: for every
request, either its result is identical under any two states, or the
request hits the fallback and the result is `localhost:leastBusyPort`
under each state respectively. -/
theorem c7_decoder_state_dependence (req : Request) (p1 p2 : Int) :
    _parseDest req p1 = _parseDest req p2 ∨
    (_parseDest req p1 = some { host := "localhost", port := p1 } ∧
     _parseDest req p2 = some { host := "localhost", port := p2 }) := by
  cases hseg : _parseDestSeg2 req with
  | none =>
      left
      simp [_parseDest, hseg]
  | some s2 =>
      cases hps : parseIntJS s2 with
      | none =>
          right
          constructor <;> simp [_parseDest, hseg, hps]
      | some n =>
          by_cases hn : n = 0
          · subst hn
            right
            constructor <;> simp [_parseDest, hseg, hps]
          · left
            simp [_parseDest, hseg, hps, hn]

/-- C8 counterexample: after reconfiguring the pool from `[8081, 8083]`
(initial random pick `8083`) to `[8082]`, aggregation over the stale
status of `8081` stores `leastBusyPort = 8081`, which is neither in
`knownPorts = [8082]` nor the initial random pick — refuting
`leastBusyPort ∈ knownPorts ∪ initial-random-pick` on a reachable
state. -/
theorem c8_counterexample :
    Reachable c8Trace ∧
    c8Trace.leastBusyPort = some 8081 ∧
    c8Trace.destPorts = [8082] ∧
    c8Trace.initialPick = some 8083 ∧
    (8081 : Int) ∉ c8Trace.destPorts ∧
    c8Trace.leastBusyPort ≠ c8Trace.initialPick := by
  have hpick : _randomPort [(⟨8081⟩ : Worker), ⟨8083⟩] (1/2) = some 8083 := by
    rw [_randomPort, randomIndex]
    norm_num
  have hinitPick : c8Trace.initialPick = some 8083 := by
    simp only [c8Trace, aggregateEffect, statusWriteEffect, setWorkers,
      initState]
    exact hpick
  have hlbp : c8Trace.leastBusyPort = some 8081 := by decide
  refine ⟨?_, hlbp, by decide, hinitPick, by decide, ?_⟩
  · exact Reachable.step _ _
      (Reachable.step _ _
        (Reachable.step _ _
          (Reachable.step _ _
            (Reachable.init [⟨8081⟩, ⟨8083⟩] (1/2) (by decide) (by norm_num)
              (by norm_num))
            (Step.statusWrite _ 8081 (some ⟨0, 0, 0⟩) (by decide)))
          (Step.reconfigure _ [⟨8082⟩] (by decide)))
        (Step.statusWrite _ 8082 (some ⟨9, 9, 9⟩) (by decide)))
      (Step.aggregate _ 0 (by norm_num) (by norm_num))
  · rw [hlbp, hinitPick]
    decide

/-- C8 amended: in every reachable state, `leastBusyPort` is defined and
names an ever-configured worker port (a member of the union of all past
`knownPorts` sets); membership in the current `knownPorts` plus the
initial random pick does not survive pool reconfiguration. -/
theorem c8_ever_configured (s : BalancerState) (hs : Reachable s) :
    ∃ p, s.leastBusyPort = some p ∧ p ∈ s.everPorts :=
  (inv_reachable hs).2.2.2

/-- Witness for C8 (amended): the invariant at a freshly constructed
balancer. -/
theorem c8_ever_configured_witness :
    ∃ p, (initState [⟨8081⟩] 0).leastBusyPort = some p ∧
      p ∈ (initState [⟨8081⟩] 0).everPorts :=
  c8_ever_configured (initState [⟨8081⟩] 0)
    (Reachable.init [⟨8081⟩] 0 (by decide) (by decide) (by decide))

/-- C9: the fault-isolation boundary re-emits a fault as an `error` event
iff its message is neither `read ECONNRESET` nor `socket hang up`; those
two signatures are swallowed, and a fault with no message (or an empty
one) is re-emitted. -/
theorem c9_fault_isolation (message : Option String) :
    domainErrorEmits message = true ↔
      message ≠ some "read ECONNRESET" ∧ message ≠ some "socket hang up" := by
  cases message with
  | none => simp [domainErrorEmits, msgFalsy]
  | some m =>
      by_cases hm : m = ""
      · subst hm
        decide
      · simp [domainErrorEmits, msgFalsy, hm]

/-- C10: with a non-empty pool, `_randomPort` indexes in bounds and
returns a configured worker's port, so constructor initialization and
all-absent aggregation produce a configured port; with an empty pool,
`_randomPort` faults. -/
theorem c10_nonempty_pool (workers : List Worker) (r : ℚ)
    (hr0 : 0 ≤ r) (hr1 : r < 1) :
    (workers ≠ [] →
      randomIndex workers.length r < workers.length ∧
      (∃ w ∈ workers, _randomPort workers r = some w.port) ∧
      (∃ w ∈ workers, (initState workers r).leastBusyPort = some w.port) ∧
      (∀ statuses : Statuses, (∀ e ∈ statuses, e.2 = none) →
        ∃ w ∈ workers, calculateLeastBusyPort statuses workers r = some w.port) ∧
      ∀ req lbp,
        (_proxyHTTPDest req (workers.map Worker.port) lbp workers r).isSome =
          true) ∧
    (workers = [] → _randomPort workers r = none) := by
  constructor
  · intro hw
    refine ⟨randomIndex_lt (List.length_pos.mpr hw) hr0 hr1,
      _randomPort_isSome hw hr0 hr1, ?_, ?_, ?_⟩
    · obtain ⟨w, hmem, heq⟩ := _randomPort_isSome hw hr0 hr1
      exact ⟨w, hmem, heq⟩
    · intro statuses hall
      have htop : scoresMin statuses = ⊤ :=
        (scoresMin_eq_top statuses).mpr (fun e he => by rw [hall e he]; rfl)
      rw [calculateLeastBusyPort_eq, if_pos htop]
      exact _randomPort_isSome hw hr0 hr1
    · intro req lbp
      obtain ⟨w, hmem, heq⟩ := _randomPort_isSome hw hr0 hr1
      cases hdest : _parseDest req lbp with
      | none => simp [_proxyHTTPDest, hdest]
      | some dest =>
          by_cases hin : dest.port ∈ workers.map Worker.port
          · simp [_proxyHTTPDest, hdest, hin]
          · simp only [_proxyHTTPDest, hdest]
            rw [if_neg hin, heq]
            rfl
  · intro hw
    subst hw
    rfl

/-- Witness for C10: in-bounds index on a singleton pool. -/
theorem c10_nonempty_pool_witness :
    randomIndex [(⟨8081⟩ : Worker)].length 0 < [(⟨8081⟩ : Worker)].length :=
  ((c10_nonempty_pool [⟨8081⟩] 0 (by decide) (by decide)).1 (by decide)).1

end LoadBalancer
